import Mathlib

/-!
Verification of the sequential-thinking session core
(`src/sequential_thinking_mcp/models_fixed.py`, `server.py`, `server_fastmcp.py`).

The embedding translates the Python source directly:
* `ThoughtData` mirrors the fields of the pydantic model (Python ints are `Int`,
  optional fields are `Option`).
* `validateThought` mirrors the construction-time pydantic validation of
  `ThoughtData`: the per-field core constraints (`min_length=1`, `ge=1`) and
  the three field validators, checked in field-declaration order, returning
  the first violated rule (pydantic accumulates errors in field order; the
  head of that list is what the first-error contract is about).
* `processThought` / `handleRevision` mirror
  `SequentialThinkingServer._process_thought` / `_handle_revision` (the
  FastMCP variant `server_fastmcp._process_thought` / `_handle_revision` is
  line-for-line the same logic on the module-level session).
* Python truthiness of the optional fields is made explicit by the
  `truthy*` helpers: `None`, `False`, `0`, and `""` are falsy.
-/

namespace SeqThinking

/-- One thought record: the `ThoughtData` pydantic model of
`models_fixed.py` (aliases: thought/thoughtNumber/totalThoughts/
nextThoughtNeeded/isRevision/revisesThought/branchFromThought/branchId/
needsMoreThoughts). -/
structure ThoughtData where
  thought : String
  thought_number : Int
  total_thoughts : Int
  next_thought_needed : Bool
  is_revision : Option Bool := none
  revises_thought : Option Int := none
  branch_from_thought : Option Int := none
  branch_id : Option String := none
  needs_more_thoughts : Option Bool := none
deriving Repr, DecidableEq

/-- Python truthiness of an `Optional[bool]`: truthy iff `True`. -/
def truthyBool : Option Bool → Bool
  | some b => b
  | none => false

/-- Python truthiness of an `Optional[int]`: truthy iff present and nonzero. -/
def truthyInt : Option Int → Bool
  | some n => decide (n ≠ 0)
  | none => false

/-- Python truthiness of an `Optional[str]`: truthy iff present and nonempty. -/
def truthyStr : Option String → Bool
  | some s => decide (s ≠ "")
  | none => false

/-- `ge=1` violation on an optional int field (pydantic skips the bound when
the value is `None`). -/
def optionalBelowOne : Option Int → Bool
  | some v => decide (v < 1)
  | none => false

/-- The named validation rules, in the order pydantic checks them for
`ThoughtData` (field-declaration order; within a field, core constraints
before its `field_validator`). -/
inductive VRule where
  | emptyText
  | seqNumTooSmall
  | totalTooSmall
  | totalLessThanSeq
  | revisionTargetTooSmall
  | revisionWithoutFlag
  | revisionTargetMissing
  | branchOriginTooSmall
  | branchIdWithoutOrigin
deriving Repr, DecidableEq

/-- The Validation Gate: the pydantic validation of `ThoughtData`
(`models_fixed.py` lines 23–115), returning the first violated rule.
Checks in field order: `thought` `min_length=1`; `thought_number ge=1`;
`total_thoughts ge=1` then `validate_total_thoughts`; `revises_thought ge=1`
then `validate_revises_thought` (its two checks in source order);
`branch_from_thought ge=1`; `validate_branch_id`. On success the record is
produced unchanged. -/
def validateThought (r : ThoughtData) : Except VRule ThoughtData :=
  if r.thought = "" then Except.error VRule.emptyText
  else if r.thought_number < 1 then Except.error VRule.seqNumTooSmall
  else if r.total_thoughts < 1 then Except.error VRule.totalTooSmall
  else if r.total_thoughts < r.thought_number then Except.error VRule.totalLessThanSeq
  else if optionalBelowOne r.revises_thought then Except.error VRule.revisionTargetTooSmall
  else if r.revises_thought.isSome && !truthyBool r.is_revision then
    Except.error VRule.revisionWithoutFlag
  else if truthyBool r.is_revision && r.revises_thought.isNone then
    Except.error VRule.revisionTargetMissing
  else if optionalBelowOne r.branch_from_thought then Except.error VRule.branchOriginTooSmall
  else if r.branch_id.isSome && r.branch_from_thought.isNone then
    Except.error VRule.branchIdWithoutOrigin
  else Except.ok r

/-- Session state: the `ThinkingSession` model. The Python `dict` of
branches is an insertion-ordered association list (Python dicts preserve
insertion order; keys stay unique because the router only inserts a key it
has checked to be absent). -/
structure ThinkingSession where
  session_id : String := ""
  main_thoughts : List ThoughtData := []
  branches : List (String × List ThoughtData) := []
  created_at : Option String := none
  updated_at : Option String := none
deriving Repr, DecidableEq

/-- The keys of the branches dict, in insertion order. -/
def branchKeys (s : ThinkingSession) : List String :=
  s.branches.map Prod.fst

/-- Dict lookup `branches[b]` (first matching key). -/
def lookupBranch (branches : List (String × List ThoughtData)) (b : String) :
    Option (List ThoughtData) :=
  (branches.find? (fun p => p.1 == b)).map Prod.snd

/-- Dict membership test `b in branches`. -/
def hasBranch (branches : List (String × List ThoughtData)) (b : String) : Bool :=
  branches.any (fun p => p.1 == b)

/-- The branch-path mutation of `_process_thought`:
`if branch_id not in branches: branches[branch_id] = []` followed by
`branches[branch_id].append(t)`. -/
def addToBranch (branches : List (String × List ThoughtData)) (b : String)
    (t : ThoughtData) : List (String × List ThoughtData) :=
  if hasBranch branches b then
    branches.map (fun p => if p.1 == b then (p.1, p.2 ++ [t]) else p)
  else
    branches ++ [(b, [t])]

/-- The branch-thought test of the router:
`if thought_data.branch_id and thought_data.branch_from_thought`
(Python truthiness: an empty `branch_id` or a zero `branch_from_thought`
fails the test). -/
def isBranchThought (t : ThoughtData) : Bool :=
  truthyStr t.branch_id && truthyInt t.branch_from_thought

/-- The revision test of the router on the main path:
`if thought_data.is_revision and thought_data.revises_thought`. -/
def isRevisionRouted (t : ThoughtData) : Bool :=
  truthyBool t.is_revision && truthyInt t.revises_thought

/-- `_handle_revision` (`server.py` 324–335 / `server_fastmcp.py` 143–154):
`if revises_thought and revises_thought <= len(main)` overwrite the
one-indexed slot and truncate, else plain append. The overwrite body
`main[k-1] = t; main = main[:k]` is written for `k ≥ 1`; after validation
`revises_thought` carries `ge=1`, so no smaller value reaches this code on
the guarded path. -/
def handleRevision (s : ThinkingSession) (t : ThoughtData) : ThinkingSession :=
  match t.revises_thought with
  | some k =>
      if k ≠ 0 ∧ k ≤ (s.main_thoughts.length : Int) then
        let i := (k - 1).toNat
        { s with main_thoughts := (s.main_thoughts.set i t).take (i + 1) }
      else
        { s with main_thoughts := s.main_thoughts ++ [t] }
  | none => { s with main_thoughts := s.main_thoughts ++ [t] }

/-- `_process_thought` (`server.py` 299–322 / `server_fastmcp.py` 157–177):
route a validated record to the branch append, the revision handler, or the
plain main-sequence append. (Logging is presentation-only and elided.) -/
def processThought (s : ThinkingSession) (t : ThoughtData) : ThinkingSession :=
  if isBranchThought t then
    { s with branches := addToBranch s.branches (t.branch_id.getD "") t }
  else if isRevisionRouted t then
    handleRevision s t
  else
    { s with main_thoughts := s.main_thoughts ++ [t] }

/-- Fold of the router over a list of submitted records, in order. -/
def processAll (s : ThinkingSession) (ts : List ThoughtData) : ThinkingSession :=
  ts.foldl processThought s

/-- The freshly created session (`ThinkingSession(session_id=..., created_at=...,
updated_at=...)` at server start): empty main sequence, no branches. -/
def initialSession (sid now : String) : ThinkingSession :=
  { session_id := sid
    main_thoughts := []
    branches := []
    created_at := some now
    updated_at := some now }

/-- Result of the `think` tool call as seen by the caller. -/
structure ToolResult where
  text : String
  isError : Bool
deriving Repr, DecidableEq

/-- The `think` tool handler (`server.py call_tool` 246–297 /
`server_fastmcp.think` 212–242): validate, then process and refresh
`updated_at`; on `ValidationError` return an error result and leave the
session untouched (the `except` path runs before any mutation). The
response texts are abstracted to fixed strings. -/
def callToolThink (s : ThinkingSession) (raw : ThoughtData) (now : String) :
    ThinkingSession × ToolResult :=
  match validateThought raw with
  | Except.ok t =>
      let s1 := processThought s t
      ({ s1 with updated_at := some now }, { text := "processed", isError := false })
  | Except.error _ => (s, { text := "invalid thought data", isError := true })

/-- The read-specific-branch query (`server.py read_resource` 227–242,
uri thoughts://branches/ plus identifier): return the record list of the branch, or raise
not-found when the identifier is not a key of the branches dict. Pure read:
the session is not touched. -/
def readBranch (s : ThinkingSession) (b : String) : Except String (List ThoughtData) :=
  match lookupBranch s.branches b with
  | some l => Except.ok l
  | none => Except.error ("Branch not found")

/-- Summary aggregate: the `ThoughtSummary` model. -/
structure ThoughtSummary where
  total_thoughts : Nat
  main_branch_thoughts : Nat
  branches : List String
  revisions_count : Nat
  is_complete : Bool
  last_thought : Option ThoughtData
deriving Repr, DecidableEq

/-- `sum(1 for thought in l if thought.is_revision)`: count the records whose
`is_revision` is truthy. -/
def countRevisions (l : List ThoughtData) : Nat :=
  (l.filter (fun t => truthyBool t.is_revision)).length

/-- `ThinkingSession.get_summary` (`models_fixed.py` 233–262): totals over
main plus every branch, surviving-record revision count, completion from the
the `next_thought_needed` flag of the last main record, last main record if any. -/
def getSummary (s : ThinkingSession) : ThoughtSummary :=
  { total_thoughts :=
      s.main_thoughts.length + (s.branches.map (fun p => p.2.length)).sum
    main_branch_thoughts := s.main_thoughts.length
    branches := s.branches.map Prod.fst
    revisions_count :=
      countRevisions s.main_thoughts + (s.branches.map (fun p => countRevisions p.2)).sum
    is_complete :=
      match s.main_thoughts.getLast? with
      | some t => !t.next_thought_needed
      | none => false
    last_thought := s.main_thoughts.getLast? }

/-- The origin position the branch-overview query reports for one branch:
`thoughts[0].branch_from_thought or 0` (`server.py` 200–217 /
`server_fastmcp.get_branch_overview` 261–273). Under Python truthiness
`x or 0` maps both `None` and `0` to `0`, i.e. `Option.getD 0`. The
`thoughts[0]` access presumes a non-empty branch list (reached only for
branches the router created, which are never empty); the empty case is set
to the same `0` fallback here. -/
def branchOriginReported (thoughts : List ThoughtData) : Int :=
  match thoughts.head? with
  | some t => t.branch_from_thought.getD 0
  | none => 0

end SeqThinking
namespace SeqThinking

theorem take_set_concat {α : Type} (l : List α) (i : Nat) (a : α) (h : i < l.length) :
    (l.set i a).take (i + 1) = l.take i ++ [a] := by
  induction l generalizing i with
  | nil => simp at h
  | cons x xs ih =>
    cases i with
    | zero => simp
    | succ n =>
      simp only [List.set_cons_succ, List.take_succ_cons, List.cons_append]
      rw [ih n (by simpa using h)]

/-- C1: for every session state and validated revision record (isRevision
true, revisionTarget k present, not routed as a branch thought) with
1 ≤ k ≤ length of mainSequence, processing replaces the one-indexed slot k
with the record and truncates the main sequence to length exactly k, so
positions 1..k-1 survive unchanged (the result is the old prefix of length
k-1 followed by the new record) and the branches map is untouched. -/
theorem revision_in_range_truncates (s : ThinkingSession) (t : ThoughtData) (k : Int)
    (hb : isBranchThought t = false)
    (hrev : t.is_revision = some true)
    (htgt : t.revises_thought = some k)
    (h1 : 1 ≤ k) (h2 : k ≤ (s.main_thoughts.length : Int)) :
    (processThought s t).main_thoughts = s.main_thoughts.take (k.toNat - 1) ++ [t] ∧
    (processThought s t).main_thoughts.length = k.toNat ∧
    (processThought s t).branches = s.branches := by
  have hrr : isRevisionRouted t = true := by
    simp [isRevisionRouted, truthyBool, truthyInt, hrev, htgt]
    omega
  have hlen : (k - 1).toNat < s.main_thoughts.length := by omega
  have hmain : (processThought s t).main_thoughts = s.main_thoughts.take (k.toNat - 1) ++ [t] := by
    simp only [processThought, hb, hrr, if_false, if_true, Bool.false_eq_true, if_pos]
    simp only [handleRevision, htgt]
    rw [if_pos ⟨by omega, h2⟩]
    have he : (k - 1).toNat = k.toNat - 1 := by omega
    rw [take_set_concat _ _ _ hlen, he]
  refine ⟨hmain, ?_, ?_⟩
  · rw [hmain]
    simp [List.length_take]
    omega
  · simp only [processThought, hb, hrr, Bool.false_eq_true, if_false, if_true]
    simp [handleRevision, htgt]
    split <;> rfl


/-- Demo record: a plain main-sequence thought. -/
def demoThoughtA : ThoughtData :=
  { thought := "A", thought_number := 1, total_thoughts := 3, next_thought_needed := true }

/-- Demo record: a second plain main-sequence thought. -/
def demoThoughtB : ThoughtData :=
  { thought := "B", thought_number := 2, total_thoughts := 3, next_thought_needed := true }

/-- Demo record: a revision of position 1. -/
def demoRevisionTo1 : ThoughtData :=
  { thought := "R", thought_number := 1, total_thoughts := 3, next_thought_needed := true,
    is_revision := some true, revises_thought := some 1 }

/-- Demo session whose main sequence holds two records. -/
def demoSessionAB : ThinkingSession :=
  { main_thoughts := [demoThoughtA, demoThoughtB] }

/-- Witness for the in-range revision theorem at a concrete input. -/
theorem revision_in_range_truncates_witness :
    (processThought demoSessionAB demoRevisionTo1).main_thoughts =
      demoSessionAB.main_thoughts.take ((1 : Int).toNat - 1) ++ [demoRevisionTo1] ∧
    (processThought demoSessionAB demoRevisionTo1).main_thoughts.length = (1 : Int).toNat ∧
    (processThought demoSessionAB demoRevisionTo1).branches = demoSessionAB.branches :=
  revision_in_range_truncates demoSessionAB demoRevisionTo1 1 (by decide) (by decide)
    (by decide) (by decide) (by decide)

/-- C3: for every session state and validated revision record (not a branch
thought) whose revisionTarget k exceeds the current main-sequence length,
processing degrades to a plain append: the new main sequence is the old one
with the record at the end, the branches map is unchanged, and no failure
occurs (the embedding is total on this path). -/
theorem revision_out_of_range_appends (s : ThinkingSession) (t : ThoughtData) (k : Int)
    (hb : isBranchThought t = false)
    (hrev : t.is_revision = some true)
    (htgt : t.revises_thought = some k)
    (h : (s.main_thoughts.length : Int) < k) :
    (processThought s t).main_thoughts = s.main_thoughts ++ [t] ∧
    (processThought s t).branches = s.branches := by
  have hrr : isRevisionRouted t = true := by
    simp [isRevisionRouted, truthyBool, truthyInt, hrev, htgt]
    omega
  simp only [processThought, hb, hrr, Bool.false_eq_true, if_false, if_true]
  simp only [handleRevision, htgt]
  rw [if_neg (by omega)]
  exact ⟨rfl, rfl⟩

/-- Demo record: a revision whose target 5 exceeds the demo session length 2. -/
def demoRevisionTo5 : ThoughtData :=
  { thought := "R5", thought_number := 3, total_thoughts := 5, next_thought_needed := true,
    is_revision := some true, revises_thought := some 5 }

/-- Witness for the out-of-range revision theorem at a concrete input. -/
theorem revision_out_of_range_appends_witness :
    (processThought demoSessionAB demoRevisionTo5).main_thoughts =
      demoSessionAB.main_thoughts ++ [demoRevisionTo5] ∧
    (processThought demoSessionAB demoRevisionTo5).branches = demoSessionAB.branches :=
  revision_out_of_range_appends demoSessionAB demoRevisionTo5 5 (by decide) (by decide)
    (by decide) (by decide)

lemma processAll_regular (ts : List ThoughtData)
    (h : ∀ t ∈ ts, isBranchThought t = false ∧ isRevisionRouted t = false) :
    ∀ s : ThinkingSession,
      (processAll s ts).main_thoughts = s.main_thoughts ++ ts ∧
      (processAll s ts).branches = s.branches := by
  induction ts with
  | nil => intro s; simp [processAll]
  | cons t ts ih =>
    intro s
    have ht := h t (List.mem_cons_self t ts)
    have hstep : processThought s t =
        { s with main_thoughts := s.main_thoughts ++ [t] } := by
      simp [processThought, ht.1, ht.2]
    have ih' := ih (fun x hx => h x (List.mem_cons_of_mem t hx))
      { s with main_thoughts := s.main_thoughts ++ [t] }
    simp only [processAll, List.foldl_cons] at *
    rw [hstep]
    refine ⟨?_, ih'.2⟩
    rw [ih'.1]
    simp

/-- C8: submitting N validated regular thoughts (records the router treats
as neither branch thoughts nor revisions) from any session state appends
exactly those N records at the end of the main sequence in submission order
and leaves the branches map unchanged; from the freshly created session the
resulting main sequence has length N. The statement imposes no constraint
on the sequenceNumber fields, so placement does not depend on them. -/
theorem regular_thoughts_append_in_order (s : ThinkingSession) (ts : List ThoughtData)
    (sid now : String)
    (h : ∀ t ∈ ts, isBranchThought t = false ∧ isRevisionRouted t = false) :
    (processAll s ts).main_thoughts = s.main_thoughts ++ ts ∧
    (processAll s ts).branches = s.branches ∧
    (processAll (initialSession sid now) ts).main_thoughts.length = ts.length := by
  refine ⟨(processAll_regular ts h s).1, (processAll_regular ts h s).2, ?_⟩
  rw [(processAll_regular ts h (initialSession sid now)).1]
  simp [initialSession]

/-- Witness for the regular-append theorem at a concrete input. -/
theorem regular_thoughts_append_in_order_witness :
    (processAll demoSessionAB [demoThoughtA, demoThoughtB]).main_thoughts =
      demoSessionAB.main_thoughts ++ [demoThoughtA, demoThoughtB] ∧
    (processAll demoSessionAB [demoThoughtA, demoThoughtB]).branches = demoSessionAB.branches ∧
    (processAll (initialSession "s" "t") [demoThoughtA, demoThoughtB]).main_thoughts.length =
      [demoThoughtA, demoThoughtB].length :=
  regular_thoughts_append_in_order demoSessionAB [demoThoughtA, demoThoughtB] "s" "t"
    (by decide)



lemma find?_update_self (br : List (String × List ThoughtData)) (b : String) (t : ThoughtData) :
    (br.map (fun p => if p.1 == b then (p.1, p.2 ++ [t]) else p)).find? (fun p => p.1 == b) =
      (br.find? (fun p => p.1 == b)).map (fun p => (p.1, p.2 ++ [t])) := by
  rw [List.find?_map]
  have hcomp : ((fun p : String × List ThoughtData => p.1 == b) ∘
      (fun p => if p.1 == b then (p.1, p.2 ++ [t]) else p)) =
      fun p : String × List ThoughtData => p.1 == b := by
    funext p
    by_cases hp : (p.1 == b) = true
    · have hp' : p.1 = b := by simpa using hp
      simp [hp']
    · have hp' : ¬ p.1 = b := by simpa using hp
      simp [hp']
  rw [hcomp]
  cases heq : br.find? (fun p => p.1 == b) with
  | none => rfl
  | some q =>
    have hq : (q.1 == b) = true := by simpa using List.find?_some heq
    have hq' : q.1 = b := by simpa using hq
    simp [hq']

lemma find?_update_other (br : List (String × List ThoughtData)) (b b' : String)
    (t : ThoughtData) (h : b' ≠ b) :
    (br.map (fun p => if p.1 == b then (p.1, p.2 ++ [t]) else p)).find? (fun p => p.1 == b') =
      br.find? (fun p => p.1 == b') := by
  rw [List.find?_map]
  have hcomp : ((fun p : String × List ThoughtData => p.1 == b') ∘
      (fun p => if p.1 == b then (p.1, p.2 ++ [t]) else p)) =
      fun p : String × List ThoughtData => p.1 == b' := by
    funext p
    by_cases hp : (p.1 == b) = true
    · have hp' : p.1 = b := by simpa using hp
      simp [hp']
    · have hp' : ¬ p.1 = b := by simpa using hp
      simp [hp']
  rw [hcomp]
  cases heq : br.find? (fun p => p.1 == b') with
  | none => rfl
  | some q =>
    have hq : (q.1 == b') = true := by simpa using List.find?_some heq
    have hq' : q.1 = b' := by simpa using hq
    have hqb : ¬ q.1 = b := by
      rw [hq']
      exact h
    simp [hqb]

lemma lookupBranch_addToBranch_self (br : List (String × List ThoughtData)) (b : String)
    (t : ThoughtData) :
    lookupBranch (addToBranch br b t) b = some ((lookupBranch br b).getD [] ++ [t]) := by
  unfold addToBranch
  by_cases h : hasBranch br b = true
  · rw [if_pos h]
    unfold lookupBranch
    rw [find?_update_self]
    have hsome : (br.find? (fun p => p.1 == b)).isSome := by
      rw [List.find?_isSome]
      exact (List.any_eq_true).mp h
    obtain ⟨q, hq⟩ := Option.isSome_iff_exists.mp hsome
    rw [hq]
    rfl
  · rw [if_neg h]
    unfold lookupBranch
    have hnone : br.find? (fun p => p.1 == b) = none := by
      rw [List.find?_eq_none]
      intro x hx hpx
      exact h ((List.any_eq_true).mpr ⟨x, hx, hpx⟩)
    rw [List.find?_append, hnone]
    simp

lemma lookupBranch_addToBranch_other (br : List (String × List ThoughtData)) (b b' : String)
    (t : ThoughtData) (h : b' ≠ b) :
    lookupBranch (addToBranch br b t) b' = lookupBranch br b' := by
  unfold addToBranch
  by_cases hb : hasBranch br b = true
  · rw [if_pos hb]
    unfold lookupBranch
    rw [find?_update_other br b b' t h]
  · rw [if_neg hb]
    unfold lookupBranch
    rw [List.find?_append]
    have hsingle : ([(b, [t])].find? (fun p => p.1 == b')) = none := by
      rw [List.find?_eq_none]
      intro x hx hpx
      have hxb : x = (b, [t]) := by simpa using hx
      have : b = b' := by simpa [hxb] using hpx
      exact h this.symm
    rw [hsingle]
    simp

/-- Demo record with `branchId` present but empty: it passes validation, yet
the router sends it to the main sequence because an empty string is falsy in
Python. -/
def demoEmptyBranchId : ThoughtData :=
  { thought := "x", thought_number := 1, total_thoughts := 1, next_thought_needed := true,
    branch_from_thought := some 1, branch_id := some "" }

/-- C2 counterexample: a validated record with both `branchId` (the empty
string) and `branchOrigin` present is appended to the main sequence and no
branch is created, contradicting the claim that any such record is routed to
`branches[branchId]` and never appears in `mainSequence`. -/
theorem branch_claim_fails_on_empty_id :
    validateThought demoEmptyBranchId = Except.ok demoEmptyBranchId ∧
    (processThought (initialSession "s" "t") demoEmptyBranchId).main_thoughts =
      [demoEmptyBranchId] ∧
    (processThought (initialSession "s" "t") demoEmptyBranchId).branches = [] :=
  ⟨rfl, rfl, rfl⟩

/-- C2 (amended: the branch identifier must be present AND non-empty, since
Python truthiness routes an empty `branchId` to the main path): processing a
validated record with non-empty `branchId` and a validated `branchOrigin`
appends it to the branch sequence named by that identifier (creating the
sequence on first use, accumulating in arrival order at the end), leaves the
main sequence unchanged, and leaves every other branch unchanged. -/
theorem branch_thought_appended (s : ThinkingSession) (t : ThoughtData) (b : String) (n : Int)
    (hb : t.branch_id = some b) (hbne : b ≠ "")
    (ho : t.branch_from_thought = some n) (hn : 1 ≤ n) :
    (processThought s t).main_thoughts = s.main_thoughts ∧
    lookupBranch (processThought s t).branches b =
      some ((lookupBranch s.branches b).getD [] ++ [t]) ∧
    (∀ b', b' ≠ b → lookupBranch (processThought s t).branches b' = lookupBranch s.branches b') := by
  have hbt : isBranchThought t = true := by
    simp [isBranchThought, truthyStr, truthyInt, hb, ho, hbne]
    omega
  unfold processThought
  rw [if_pos hbt]
  refine ⟨rfl, ?_, ?_⟩
  · simp only [hb, Option.getD_some]
    exact lookupBranch_addToBranch_self s.branches b t
  · intro b' hb'
    simp only [hb, Option.getD_some]
    exact lookupBranch_addToBranch_other s.branches b b' t hb'

/-- Demo record: a branch thought for branch "alt" forking from position 1. -/
def demoBranchAlt : ThoughtData :=
  { thought := "Alt", thought_number := 2, total_thoughts := 4, next_thought_needed := true,
    branch_from_thought := some 1, branch_id := some "alt" }

/-- Witness for the amended branch-append theorem at a concrete input. -/
theorem branch_thought_appended_witness :
    (processThought demoSessionAB demoBranchAlt).main_thoughts = demoSessionAB.main_thoughts ∧
    lookupBranch (processThought demoSessionAB demoBranchAlt).branches "alt" =
      some ((lookupBranch demoSessionAB.branches "alt").getD [] ++ [demoBranchAlt]) ∧
    (∀ b', b' ≠ "alt" →
      lookupBranch (processThought demoSessionAB demoBranchAlt).branches b' =
        lookupBranch demoSessionAB.branches b') :=
  branch_thought_appended demoSessionAB demoBranchAlt "alt" 1 (by decide) (by decide)
    (by decide) (by decide)


lemma truthyBool_true_iff (o : Option Bool) : truthyBool o = true ↔ o = some true := by
  cases o with
  | none => simp [truthyBool]
  | some b => cases b <;> simp [truthyBool]

lemma truthyBool_false_iff (o : Option Bool) : truthyBool o = false ↔ o ≠ some true := by
  cases o with
  | none => simp [truthyBool]
  | some b => cases b <;> simp [truthyBool]

lemma optionalBelowOne_true_iff (o : Option Int) :
    optionalBelowOne o = true ↔ ∃ v, o = some v ∧ v < 1 := by
  cases o with
  | none => simp [optionalBelowOne]
  | some v => simp [optionalBelowOne]

/-- Demo raw input rejected only by the `ge=1` bound on `revisesThought`:
`isRevision=True`, `revisesThought=0`, all other fields well formed. -/
def demoRevisionTargetZero : ThoughtData :=
  { thought := "a", thought_number := 1, total_thoughts := 1, next_thought_needed := true,
    is_revision := some true, revises_thought := some 0 }

/-- C4 counterexample: `revisesThought=0` with `isRevision=True` violates none
of the conditions listed by the claim, yet validation rejects it (the
pydantic `ge=1` bound on `revises_thought`), so the claimed rejection set is too
small. -/
theorem validation_claim_misses_ge_rules :
    validateThought demoRevisionTargetZero = Except.error VRule.revisionTargetTooSmall ∧
    ¬(demoRevisionTargetZero.thought = "" ∨
      demoRevisionTargetZero.thought_number < 1 ∨
      demoRevisionTargetZero.total_thoughts < 1 ∨
      demoRevisionTargetZero.total_thoughts < demoRevisionTargetZero.thought_number ∨
      (demoRevisionTargetZero.is_revision = some true ∧
        demoRevisionTargetZero.revises_thought = none) ∨
      (demoRevisionTargetZero.revises_thought ≠ none ∧
        demoRevisionTargetZero.is_revision ≠ some true) ∨
      (demoRevisionTargetZero.branch_id ≠ none ∧
        demoRevisionTargetZero.branch_from_thought = none)) := by
  refine ⟨rfl, ?_⟩
  decide

/-- Decidability of the present-and-below-one condition on an optional int. -/
instance (o : Option Int) : Decidable (∃ v, o = some v ∧ v < 1) :=
  decidable_of_iff (optionalBelowOne o = true) (optionalBelowOne_true_iff o)

/-- Specification-side formulation, written from the language of the claim (with
the two `ge=1` bounds the code also enforces, inserted at their field-order
positions): the first violated rule of the check order, or `none` when the
input is acceptable. Compared against `validateThought`, which is
translated from the pydantic source. -/
def firstViolation (r : ThoughtData) : Option VRule :=
  if r.thought = "" then some VRule.emptyText
  else if r.thought_number < 1 then some VRule.seqNumTooSmall
  else if r.total_thoughts < 1 then some VRule.totalTooSmall
  else if r.total_thoughts < r.thought_number then some VRule.totalLessThanSeq
  else if ∃ v, r.revises_thought = some v ∧ v < 1 then some VRule.revisionTargetTooSmall
  else if r.revises_thought ≠ none ∧ r.is_revision ≠ some true then
    some VRule.revisionWithoutFlag
  else if r.is_revision = some true ∧ r.revises_thought = none then
    some VRule.revisionTargetMissing
  else if ∃ v, r.branch_from_thought = some v ∧ v < 1 then some VRule.branchOriginTooSmall
  else if r.branch_id ≠ none ∧ r.branch_from_thought = none then
    some VRule.branchIdWithoutOrigin
  else none

set_option maxHeartbeats 2000000 in
/-- C4 (amended: the rejection set additionally contains a present
`revisionTarget` below 1 and a present `branchOrigin` below 1, the `ge=1` field bounds pydantic enforces; the reported rule is the first violated one in the
field-check order) -/
theorem validation_rejects_iff (r : ThoughtData) :
    ((∃ e, validateThought r = Except.error e) ↔
      (r.thought = "" ∨
       r.thought_number < 1 ∨
       r.total_thoughts < 1 ∨
       r.total_thoughts < r.thought_number ∨
       (r.is_revision = some true ∧ r.revises_thought = none) ∨
       (r.revises_thought ≠ none ∧ r.is_revision ≠ some true) ∨
       (∃ v, r.revises_thought = some v ∧ v < 1) ∨
       (∃ v, r.branch_from_thought = some v ∧ v < 1) ∨
       (r.branch_id ≠ none ∧ r.branch_from_thought = none))) ∧
    validateThought r =
      (match firstViolation r with
       | some e => Except.error e
       | none => Except.ok r) := by
  refine ⟨?_, ?_⟩
  · unfold validateThought
    split_ifs with h1 h2 h3 h4 h5 h6 h7 h8 h9
    · exact iff_of_true ⟨_, rfl⟩ (Or.inl h1)
    · exact iff_of_true ⟨_, rfl⟩ (Or.inr (Or.inl h2))
    · exact iff_of_true ⟨_, rfl⟩ (Or.inr (Or.inr (Or.inl h3)))
    · exact iff_of_true ⟨_, rfl⟩ (Or.inr (Or.inr (Or.inr (Or.inl h4))))
    · refine iff_of_true ⟨_, rfl⟩ ?_
      have := (optionalBelowOne_true_iff r.revises_thought).mp h5
      exact Or.inr (Or.inr (Or.inr (Or.inr (Or.inr (Or.inr (Or.inl this))))))
    · refine iff_of_true ⟨_, rfl⟩ ?_
      rw [Bool.and_eq_true] at h6
      have hs : r.revises_thought ≠ none := by
        intro hc
        rw [hc] at h6
        simp at h6
      have hr : r.is_revision ≠ some true := by
        have := h6.2
        rw [Bool.not_eq_eq_eq_not, Bool.not_true] at this
        exact (truthyBool_false_iff r.is_revision).mp this
      exact Or.inr (Or.inr (Or.inr (Or.inr (Or.inr (Or.inl ⟨hs, hr⟩)))))
    · refine iff_of_true ⟨_, rfl⟩ ?_
      rw [Bool.and_eq_true] at h7
      have hr : r.is_revision = some true := (truthyBool_true_iff r.is_revision).mp h7.1
      have hs : r.revises_thought = none := Option.isNone_iff_eq_none.mp h7.2
      exact Or.inr (Or.inr (Or.inr (Or.inr (Or.inl ⟨hr, hs⟩))))
    · refine iff_of_true ⟨_, rfl⟩ ?_
      have := (optionalBelowOne_true_iff r.branch_from_thought).mp h8
      exact Or.inr (Or.inr (Or.inr (Or.inr (Or.inr (Or.inr (Or.inr (Or.inl this)))))))
    · refine iff_of_true ⟨_, rfl⟩ ?_
      rw [Bool.and_eq_true] at h9
      have hs : r.branch_id ≠ none := by
        intro hc
        rw [hc] at h9
        simp at h9
      have hn : r.branch_from_thought = none := Option.isNone_iff_eq_none.mp h9.2
      exact Or.inr (Or.inr (Or.inr (Or.inr (Or.inr (Or.inr (Or.inr (Or.inr ⟨hs, hn⟩)))))))
    · refine iff_of_false ?_ ?_
      · rintro ⟨e, he⟩
        exact he
      · rintro (hc | hc | hc | hc | hc | hc | hc | hc | hc)
        · exact h1 hc
        · exact h2 hc
        · exact h3 hc
        · exact h4 hc
        · exact h7 (by
            rw [Bool.and_eq_true]
            exact ⟨(truthyBool_true_iff r.is_revision).mpr hc.1,
              Option.isNone_iff_eq_none.mpr hc.2⟩)
        · refine h6 ?_
          rw [Bool.and_eq_true]
          refine ⟨Option.isSome_iff_ne_none.mpr hc.1, ?_⟩
          rw [Bool.not_eq_eq_eq_not, Bool.not_true]
          exact (truthyBool_false_iff r.is_revision).mpr hc.2
        · exact h5 ((optionalBelowOne_true_iff r.revises_thought).mpr hc)
        · exact h8 ((optionalBelowOne_true_iff r.branch_from_thought).mpr hc)
        · refine h9 ?_
          rw [Bool.and_eq_true]
          exact ⟨Option.isSome_iff_ne_none.mpr hc.1,
            Option.isNone_iff_eq_none.mpr hc.2⟩
  · unfold validateThought firstViolation
    simp only [Bool.and_eq_true, Bool.not_eq_true', Option.isSome_iff_ne_none,
      Option.isNone_iff_eq_none, truthyBool_true_iff, truthyBool_false_iff,
      optionalBelowOne_true_iff]
    split_ifs <;> rfl

/-- Witness for the amended validation theorem: an accepted record falsifies
the rejection set, a rejected one satisfies it. -/
theorem validation_rejects_iff_witness :
    ¬(demoThoughtA.thought = "" ∨
      demoThoughtA.thought_number < 1 ∨
      demoThoughtA.total_thoughts < 1 ∨
      demoThoughtA.total_thoughts < demoThoughtA.thought_number ∨
      (demoThoughtA.is_revision = some true ∧ demoThoughtA.revises_thought = none) ∨
      (demoThoughtA.revises_thought ≠ none ∧ demoThoughtA.is_revision ≠ some true) ∨
      (∃ v, demoThoughtA.revises_thought = some v ∧ v < 1) ∨
      (∃ v, demoThoughtA.branch_from_thought = some v ∧ v < 1) ∨
      (demoThoughtA.branch_id ≠ none ∧ demoThoughtA.branch_from_thought = none)) := by
  intro hd
  obtain ⟨e, he⟩ := (validation_rejects_iff demoThoughtA).1.mpr hd
  exact Except.noConfusion ((rfl : validateThought demoThoughtA = Except.ok demoThoughtA) ▸ he)


/-- Demo raw input with empty text: rejected by the first validation rule. -/
def demoEmptyText : ThoughtData :=
  { thought := "", thought_number := 1, total_thoughts := 1, next_thought_needed := true }

/-- C5: a submit-thought call whose input fails validation is a no-op on
session state: the main sequence, the branches map and the updatedAt
timestamp are exactly as before the call, and an error result is returned
to the caller. -/
theorem failed_validation_is_noop (s : ThinkingSession) (raw : ThoughtData) (now : String)
    (e : VRule) (h : validateThought raw = Except.error e) :
    (callToolThink s raw now).1.main_thoughts = s.main_thoughts ∧
    (callToolThink s raw now).1.branches = s.branches ∧
    (callToolThink s raw now).1.updated_at = s.updated_at ∧
    (callToolThink s raw now).2.isError = true := by
  unfold callToolThink
  rw [h]
  exact ⟨rfl, rfl, rfl, rfl⟩

/-- Witness for the failed-validation no-op theorem at a concrete input. -/
theorem failed_validation_is_noop_witness :
    (callToolThink demoSessionAB demoEmptyText "now").1.main_thoughts =
      demoSessionAB.main_thoughts ∧
    (callToolThink demoSessionAB demoEmptyText "now").1.branches = demoSessionAB.branches ∧
    (callToolThink demoSessionAB demoEmptyText "now").1.updated_at =
      demoSessionAB.updated_at ∧
    (callToolThink demoSessionAB demoEmptyText "now").2.isError = true :=
  failed_validation_is_noop demoSessionAB demoEmptyText "now" VRule.emptyText rfl

lemma truthyBool_eq_beq (o : Option Bool) : truthyBool o = (o == some true) := by
  cases o with
  | none => rfl
  | some b => cases b <;> rfl

/-- C6: the summary generator returns totalThoughts equal to the number of
records across the main sequence and all branches, mainBranchThoughts equal
to the main-sequence length, branchIds equal to the keys of the branches
map, and revisionsCount equal to the number of currently-present records
(main plus branches) whose isRevision flag is true; truncated-away records
no longer exist in the state, so they are not counted. -/
theorem summary_counts (s : ThinkingSession) :
    (getSummary s).total_thoughts =
      (s.main_thoughts :: s.branches.map Prod.snd).flatten.length ∧
    (getSummary s).main_branch_thoughts = s.main_thoughts.length ∧
    (getSummary s).branches = s.branches.map Prod.fst ∧
    (getSummary s).revisions_count =
      ((s.main_thoughts :: s.branches.map Prod.snd).flatten.filter
        (fun t => t.is_revision == some true)).length := by
  refine ⟨?_, rfl, rfl, ?_⟩
  · rw [List.length_flatten]
    simp only [getSummary, List.map_cons, List.map_map, List.sum_cons]
    rfl
  · rw [← List.countP_eq_length_filter, List.countP_flatten]
    simp only [getSummary, List.map_cons, List.map_map, List.sum_cons]
    have hc : ∀ l : List ThoughtData,
        countRevisions l = l.countP (fun t => t.is_revision == some true) := by
      intro l
      rw [countRevisions, ← List.countP_eq_length_filter]
      congr 1
      funext t
      rw [truthyBool_eq_beq]
    rw [hc]
    congr 1
    congr 1
    apply List.map_congr_left
    intro p _
    exact hc p.2

/-- C7: the summary flag isComplete is true exactly when the main sequence
is non-empty and its last record has continuation false (an empty main
sequence is incomplete), and lastThought is the last main-sequence record
when one exists and absent when the main sequence is empty. -/
theorem summary_completion (s : ThinkingSession) :
    ((getSummary s).is_complete = true ↔
      ∃ l t, s.main_thoughts = l ++ [t] ∧ t.next_thought_needed = false) ∧
    (s.main_thoughts = [] → (getSummary s).last_thought = none) ∧
    (∀ l t, s.main_thoughts = l ++ [t] → (getSummary s).last_thought = some t) := by
  refine ⟨?_, ?_, ?_⟩
  · rcases List.eq_nil_or_concat s.main_thoughts with hnil | ⟨l, a, hla⟩
    · rw [show (getSummary s).is_complete = false by
        simp [getSummary, hnil]]
      refine iff_of_false (by simp) ?_
      rintro ⟨l, t, hlt, _⟩
      rw [hnil] at hlt
      exact List.append_ne_nil_of_right_ne_nil l (by simp) hlt.symm
    · rw [List.concat_eq_append] at hla
      have hlast : s.main_thoughts.getLast? = some a := by
        rw [hla]
        exact List.getLast?_concat l
      have hic : (getSummary s).is_complete = !a.next_thought_needed := by
        simp [getSummary, hlast]
      rw [hic]
      constructor
      · intro hb
        exact ⟨l, a, hla, by simpa using hb⟩
      · rintro ⟨l', t', hlt', hf'⟩
        have : some a = some t' := by
          rw [← hlast, hlt']
          exact List.getLast?_concat l'
        have hat : a = t' := by injection this
        rw [hat, hf']
        rfl
  · intro hnil
    simp [getSummary, hnil]
  · intro l t hlt
    have : (getSummary s).last_thought = s.main_thoughts.getLast? := rfl
    rw [this, hlt]
    exact List.getLast?_concat l

/-- Witness for the summary-completion theorem at a concrete input. -/
theorem summary_completion_witness :
    (getSummary (initialSession "s" "t")).last_thought = none :=
  (summary_completion (initialSession "s" "t")).2.1 rfl


/-- C9: the read-specific-branch query fails with its not-found error
exactly when the identifier is not a key of the branches map, and for a
known identifier it returns that branch, in full and in stored order, as
held in the map (the query is a pure read: it takes the session and returns
a value, never a mutated session). -/
theorem read_branch_not_found_iff (s : ThinkingSession) (b : String) :
    ((∃ e, readBranch s b = Except.error e) ↔ b ∉ branchKeys s) ∧
    (∀ l, lookupBranch s.branches b = some l → readBranch s b = Except.ok l) := by
  constructor
  · unfold readBranch
    cases hl : lookupBranch s.branches b with
    | some l =>
      refine iff_of_false ?_ ?_
      · rintro ⟨e, he⟩
        simp at he
      · intro hnk
        unfold lookupBranch at hl
        obtain ⟨q, hq⟩ := Option.map_eq_some'.mp hl
        have hqm : q ∈ s.branches := List.mem_of_find?_eq_some hq.1
        have hqb : q.1 = b := by simpa using List.find?_some hq.1
        exact hnk (List.mem_map.mpr ⟨q, hqm, hqb⟩)
    | none =>
      refine iff_of_true ⟨_, rfl⟩ ?_
      intro hk
      obtain ⟨q, hqm, hqb⟩ := List.mem_map.mp hk
      unfold lookupBranch at hl
      have hfn : s.branches.find? (fun p => p.1 == b) = none :=
        Option.map_eq_none'.mp hl
      have := List.find?_eq_none.mp hfn q hqm
      simp [hqb] at this
  · intro l hl
    unfold readBranch
    rw [hl]

/-- Witness for the read-specific-branch theorem at a concrete input. -/
theorem read_branch_not_found_iff_witness :
    readBranch (processThought demoSessionAB demoBranchAlt) "alt" =
      Except.ok [demoBranchAlt] :=
  (read_branch_not_found_iff (processThought demoSessionAB demoBranchAlt) "alt").2
    [demoBranchAlt] (by decide)

/-- A record the router is allowed to store in a branch: both branch fields
are present and truthy (non-empty identifier, nonzero origin). -/
def branchRecordOk (t : ThoughtData) : Prop :=
  (∃ bid, t.branch_id = some bid ∧ bid ≠ "") ∧
  (∃ n, t.branch_from_thought = some n ∧ n ≠ 0)

/-- Invariant on the branches dict: every branch list is non-empty and every
stored record has truthy branch fields. -/
def branchesWellFormed (br : List (String × List ThoughtData)) : Prop :=
  ∀ p ∈ br, p.2 ≠ [] ∧ ∀ t ∈ p.2, branchRecordOk t

lemma handleRevision_branches (s : ThinkingSession) (t : ThoughtData) :
    (handleRevision s t).branches = s.branches := by
  unfold handleRevision
  cases t.revises_thought with
  | none => rfl
  | some k =>
    split
    · split <;> rfl
    · rfl

lemma branchesWellFormed_step (s : ThinkingSession) (t : ThoughtData)
    (h : branchesWellFormed s.branches) :
    branchesWellFormed (processThought s t).branches := by
  unfold processThought
  by_cases hbt : isBranchThought t = true
  · rw [if_pos hbt]
    have hok : branchRecordOk t := by
      unfold isBranchThought at hbt
      rw [Bool.and_eq_true] at hbt
      constructor
      · cases hbid : t.branch_id with
        | none => rw [hbid] at hbt; exact absurd hbt.1 (by simp [truthyStr])
        | some bid =>
          refine ⟨bid, rfl, ?_⟩
          have := hbt.1
          rw [hbid] at this
          simpa [truthyStr] using this
      · cases hbf : t.branch_from_thought with
        | none => rw [hbf] at hbt; exact absurd hbt.2 (by simp [truthyInt])
        | some n =>
          refine ⟨n, rfl, ?_⟩
          have := hbt.2
          rw [hbf] at this
          simpa [truthyInt] using this
    intro p hp
    unfold addToBranch at hp
    by_cases hhas : hasBranch s.branches (t.branch_id.getD "") = true
    · rw [if_pos hhas] at hp
      obtain ⟨q, hqm, hqe⟩ := List.mem_map.mp hp
      by_cases hqb : (q.1 == t.branch_id.getD "") = true
      · rw [if_pos hqb] at hqe
        obtain ⟨hq1, hq2⟩ := h q hqm
        rw [← hqe]
        refine ⟨by simp, ?_⟩
        intro x hx
        rcases List.mem_append.mp hx with hx | hx
        · exact hq2 x hx
        · rw [List.mem_singleton.mp hx]
          exact hok
      · rw [if_neg hqb] at hqe
        rw [← hqe]
        exact h q hqm
    · rw [if_neg hhas] at hp
      rcases List.mem_append.mp hp with hp | hp
      · exact h p hp
      · rw [List.mem_singleton.mp hp]
        refine ⟨by simp, ?_⟩
        intro x hx
        rw [List.mem_singleton.mp hx]
        exact hok
  · rw [if_neg hbt]
    by_cases hrr : isRevisionRouted t = true
    · rw [if_pos hrr, handleRevision_branches]
      exact h
    · rw [if_neg hrr]
      exact h

lemma branchesWellFormed_processAll (ts : List ThoughtData) :
    ∀ s : ThinkingSession, branchesWellFormed s.branches →
      branchesWellFormed (processAll s ts).branches := by
  induction ts with
  | nil => intro s h; exact h
  | cons t ts ih =>
    intro s h
    have h1 := branchesWellFormed_step s t h
    exact ih (processThought s t) h1

/-- C10: invariant reachable from the empty session under any sequence of
router operations: every record stored in any branch sequence carries a
present, non-empty branchId and a present, nonzero branchOrigin; hence
every stored branch is non-empty, and the origin the branch-overview query
reports (from the first record of the branch) is the submitted
branchOrigin value of that record, never the 0 fallback. -/
theorem branch_origin_never_defaulted (sid now : String) (ts : List ThoughtData) :
    ∀ p ∈ (processAll (initialSession sid now) ts).branches,
      (∀ t ∈ p.2, branchRecordOk t) ∧
      ∃ t n, p.2.head? = some t ∧ t.branch_from_thought = some n ∧ n ≠ 0 ∧
        branchOriginReported p.2 = n := by
  have hwf : branchesWellFormed (processAll (initialSession sid now) ts).branches := by
    refine branchesWellFormed_processAll ts (initialSession sid now) ?_
    intro p hp
    exact absurd hp (by simp [initialSession])
  intro p hp
  obtain ⟨hne, hall⟩ := hwf p hp
  refine ⟨hall, ?_⟩
  cases hl : p.2 with
  | nil => exact absurd hl hne
  | cons t0 rest =>
    have ht0 : t0 ∈ p.2 := by rw [hl]; exact List.mem_cons_self t0 rest
    obtain ⟨_, n, hn, hnz⟩ := hall t0 ht0
    refine ⟨t0, n, rfl, hn, hnz, ?_⟩
    unfold branchOriginReported
    simp [hn]

/-- Witness for the branch-origin invariant theorem at a concrete input. -/
theorem branch_origin_never_defaulted_witness :
    (∀ t ∈ [demoBranchAlt], branchRecordOk t) ∧
    ∃ t n, [demoBranchAlt].head? = some t ∧ t.branch_from_thought = some n ∧ n ≠ 0 ∧
      branchOriginReported [demoBranchAlt] = n :=
  branch_origin_never_defaulted "s" "t" [demoBranchAlt] ("alt", [demoBranchAlt]) (by decide)

end SeqThinking
